import Mathlib

/-!
Verification of the evey-events append-only message-queue store
(src/evey.go) against its specification.

The embedding models:
  - a log file as a list of bytes (List Nat, each byte < 256 by construction);
  - the file handle as an MFile, a byte list plus an optional write budget
    that models environment-caused write failures (an exhausted budget makes
    the next write fail, standing for the IOError case of os.File.Write);
  - the request body (io.ReadCloser) as an InStream: the chunks successive
    Read calls deliver, plus a flag telling whether the stream ends in io.EOF
    (readErr = false) or in a read error (readErr = true);
  - queue names as lists of characters (Go strings are indexed bytewise;
    valid names are ASCII so the distinction does not matter);
  - errors as Except String / Option, mirroring the error returns and the
    places where the Go code aborts recovery.

Functions keep the names of the Go functions they are translated from.
-/

namespace Evey

/-- The file header magic bytes, the Go global DBHEADER = "EE|v1|". -/
def DBHEADER : List Nat := [69, 69, 124, 118, 49, 124]

/-- The record marker bytes, the Go global RECHEADER = "\n|EE|". -/
def RECHEADER : List Nat := [10, 124, 69, 69, 124]

/-- Record header size: marker + 4-byte little-endian length + newline. -/
def RECHEADERSZ : Nat := RECHEADER.length + 4 + 1

/-- Little-endian encoding of a uint32 length into 4 bytes, as produced by
binary.Write with binary.LittleEndian in saveMsg. -/
def le4 (n : Nat) : List Nat :=
  [n % 256, n / 256 % 256, n / 65536 % 256, n / 16777216 % 256]

/-- Little-endian decoding of 4 bytes into a length, as performed by
binary.Read with binary.LittleEndian in getRecLen. -/
def dec4 (l : List Nat) : Nat :=
  match l with
  | [a, b, c, d] => a + 256 * b + 65536 * c + 16777216 * d
  | _ => 0

/-- A record pointer, the Go struct recptr: off is the int64 byte offset of
the start of the payload (always nonnegative, so modelled as Nat), sz is the
uint32 payload size. -/
structure Recptr where
  off : Nat
  sz : Nat
deriving DecidableEq, Repr

/-- The contents seen through one open file handle, plus a write budget that
models environment-caused write failures: with budget none every write
succeeds; with budget some b only b more bytes can be written before writes
fail, modelling the IOError case of os.File.Write. -/
structure MFile where
  data : List Nat
  budget : Option Nat
deriving DecidableEq, Repr

/-- One call sequence of an io.ReadCloser: the byte chunks the successive
Read calls return, and whether the stream then ends with io.EOF
(readErr = false) or with some other read error (readErr = true). -/
structure InStream where
  chunks : List (List Nat)
  readErr : Bool
deriving DecidableEq, Repr

/-- The Go struct msglog: queue name, open file handle, index of record
pointers. -/
structure Msglog where
  name : List Char
  f : MFile
  msgs : List Recptr
deriving DecidableEq, Repr

/-- One write on an MFile: appends the bytes at the end of the file, or
fails when the write budget is exhausted. -/
def writeF (f : MFile) (bs : List Nat) : Option MFile :=
  match f.budget with
  | none => some ⟨f.data ++ bs, none⟩
  | some b => if bs.length ≤ b then some ⟨f.data ++ bs, some (b - bs.length)⟩ else none

/-- The read-and-copy loop of saveMsg: each chunk delivered by the body is
written to the file; a failing write aborts immediately, leaving the bytes
written so far in the file. Returns the success flag and the file. -/
def writeChunks (f : MFile) : List (List Nat) → Bool × MFile
  | [] => (true, f)
  | c :: cs =>
    match writeF f c with
    | none => (false, f)
    | some f2 => writeChunks f2 cs

/-- Translation of saveMsg (src/evey.go lines 213-247): seek to the end of
the file, stat it to learn its current size, write the record marker, the
4-byte little-endian declared length, a newline, then copy the body chunks
until EOF or error. On success the value returned is the file size measured
before any of the writes; any write failure or a body read error other than
io.EOF yields none. The file is returned as mutated so far even on failure,
exactly as the on-disk file keeps any bytes written before the error. -/
def saveMsg (len_ : Nat) (inp : InStream) (f : MFile) : Option Nat × MFile :=
  let sz := f.data.length
  match writeF f RECHEADER with
  | none => (none, f)
  | some f1 =>
    match writeF f1 (le4 len_) with
    | none => (none, f1)
    | some f2 =>
      match writeF f2 [10] with
      | none => (none, f2)
      | some f3 =>
        match writeChunks f3 inp.chunks with
        | (false, f4) => (none, f4)
        | (true, f4) => if inp.readErr then (none, f4) else (some sz, f4)

/-- Translation of the tail of save (src/evey.go lines 99-108): run saveMsg
on the log file and, only when it succeeded, append the record pointer
(payload offset = returned offset + RECHEADERSZ, size = the declared
length) to the in-memory index, returning the new index length as the
1-based sequence number. -/
def appendToLog (len_ : Nat) (inp : InStream) (mlg : Msglog) : Option Nat × Msglog :=
  match saveMsg len_ inp mlg.f with
  | (none, f2) => (none, { mlg with f := f2 })
  | (some offset, f2) =>
    let recoffset := offset + RECHEADERSZ
    let msgs2 := mlg.msgs ++ [⟨recoffset, len_⟩]
    (some msgs2.length, { mlg with f := f2, msgs := msgs2 })

/-- ASCII lowercasing of one character, the effect of strings.ToLower on the
character range that valid queue names can contain. -/
def lowerChar (c : Char) : Char :=
  if 'A' ≤ c ∧ c ≤ 'Z' then Char.ofNat (c.toNat + 32) else c

/-- strings.ToLower on a queue name. -/
def lowerName (n : List Char) : List Char := n.map lowerChar

/-- Translation of findLog (src/evey.go lines 249-256): first registered log
whose lowercased name equals the lowercased requested name. -/
def findLog (name : List Char) (logs : List Msglog) : Option Msglog :=
  logs.find? (fun l => lowerName l.name = lowerName name)

/-- Functional counterpart of mutation through the pointer findLog returned:
replace the first log matching the name. -/
def replaceLog (name : List Char) (new : Msglog) : List Msglog → List Msglog
  | [] => []
  | l :: ls =>
    if lowerName l.name = lowerName name then new :: ls else l :: replaceLog name new ls

/-- Translation of createLog (src/evey.go lines 192-211): create the backing
file, write the DBHEADER magic into it, and return a log with an empty
index. Creation of the file itself is assumed to succeed (the os.OpenFile
failure branch depends on the operating system, not on this program). -/
def createLog (name : List Char) : Msglog :=
  { name := name, f := { data := DBHEADER, budget := none }, msgs := [] }

/-- Translation of save (src/evey.go lines 91-109): find the queue log,
create it when absent (createLog registers the new log in the state before
the message is written, so a log created by a failing save stays
registered), then append through appendToLog. Mutation through the shared
pointer is modelled by replacing the log in the state list. -/
def save (name : List Char) (len_ : Nat) (inp : InStream) (logs : List Msglog) :
    Option Nat × List Msglog :=
  match findLog name logs with
  | some mlg =>
    let r := appendToLog len_ inp mlg
    (r.1, replaceLog name r.2 logs)
  | none =>
    let mlg := createLog name
    let r := appendToLog len_ inp mlg
    (r.1, logs ++ [r.2])

/-- Translation of getRecLen (src/evey.go lines 168-190): read exactly
RECHEADERSZ bytes at the offset (io.ReadFull fails when fewer are
available), check the marker bytes, check the trailing newline, and decode
the little-endian length field. -/
def getRecLen (offset : Nat) (f : List Nat) : Except String Nat :=
  let hdr := (f.drop offset).take RECHEADERSZ
  if hdr.length < RECHEADERSZ then Except.error "Read Failed"
  else if hdr.take RECHEADER.length = RECHEADER then
    if hdr.getD (RECHEADERSZ - 1) 0 = 10 then
      Except.ok (dec4 ((hdr.drop RECHEADER.length).take 4))
    else Except.error "Invalid header newline"
  else Except.error "Invalid Rec Header"

/-- The record-walking loop of loadLog (src/evey.go lines 145-159): while
the cursor is before the end of the file, decode the record header at the
cursor, push a pointer to its payload, and jump the cursor past the
payload. The loop of the Go code terminates because the cursor strictly
grows by at least RECHEADERSZ per step; here that is expressed with a fuel
argument, always called with more fuel than the loop can consume. -/
def scanRecs : Nat → List Nat → Nat → Except String (List Recptr)
  | 0, _, _ => Except.error "scan out of fuel"
  | fuel + 1, f, offset =>
    if f.length ≤ offset then Except.ok []
    else
      match getRecLen offset f with
      | Except.error e => Except.error e
      | Except.ok reclen =>
        match scanRecs fuel f (offset + RECHEADERSZ + reclen) with
        | Except.error e => Except.error e
        | Except.ok rest => Except.ok (⟨offset + RECHEADERSZ, reclen⟩ :: rest)

/-- Translation of loadLog (src/evey.go lines 127-166) at the level of one
file content: read and compare the DBHEADER magic, then walk the records
from just past the header, rebuilding the index. Any failure makes recovery
abort (the Go code stops the whole process). The fuel passed to the loop,
file length + 1, strictly exceeds the number of iterations, since every
iteration advances the cursor by at least RECHEADERSZ. -/
def loadLog (f : List Nat) : Except String (List Recptr) :=
  if (f.take DBHEADER.length).length < DBHEADER.length then
    Except.error "Failed to read DB header"
  else if f.take DBHEADER.length = DBHEADER then
    scanRecs (f.length + 1) f DBHEADER.length
  else Except.error "Invalid DB header"

/-- True on error values; recovery aborts exactly when this holds. -/
def isErr : Except String (List Recptr) → Bool
  | Except.error _ => true
  | Except.ok _ => false

/-- A character the queue-name regular expression class [-.A-Za-z0-9]
accepts. -/
def isValidChar (c : Char) : Bool :=
  c = '-' || c = '.' || ('A' ≤ c && c ≤ 'Z') || ('a' ≤ c && c ≤ 'z') || ('0' ≤ c && c ≤ '9')

/-- Translation of isInvalidName (src/evey.go lines 321-324): the regular
expression match of the negated class, true when some character falls
outside [-.A-Za-z0-9]. An empty string has no such character, so it is not
invalid by this test alone; the handlers reject it through the empty-name
check on the result of getQueueName. -/
def isInvalidName (n : List Char) : Bool :=
  n.any (fun c => !(isValidChar c))

/-- The first bytes after the first slash at position 1 or later, none when
no such slash exists: the loop of getQueueName over the URL path. -/
def afterSlash : List Char → Option (List Char)
  | [] => none
  | c :: cs => if c = '/' then some cs else afterSlash cs

/-- The name-extraction part of getQueueName (src/evey.go lines 262-269):
drop everything up to and including the first slash found from index 1 on;
when no such slash exists the whole path is kept. -/
def extractName (p : List Char) : List Char :=
  match p with
  | [] => []
  | _ :: rest =>
    match afterSlash rest with
    | some r => r
    | none => p

/-- Translation of getQueueName (src/evey.go lines 262-275): extract the
name from the URL path, and return the empty name when it fails
validation. Both handlers treat an empty result as a rejected request. -/
def getQueueName (p : List Char) : List Char :=
  if isInvalidName (extractName p) then [] else extractName p

/-- The filename component handed to path.Join by createLog: the queue name
followed by the .log extension. -/
def logFileName (name : List Char) : List Char :=
  name ++ ['.', 'l', 'o', 'g']

/-- Outcome of the get handler, mirroring the HTTP statuses it writes:
badRequest = 400, notFound = 404, noContent = 204, serverError = 500,
ok = the payload bytes written back. -/
inductive GetOutcome where
  | badRequest
  | notFound
  | noContent
  | serverError
  | ok (bytes : List Nat)
deriving DecidableEq, Repr

/-- Translation of sendLog (src/evey.go lines 306-314): look up the pointer,
read exactly sz bytes at off through ReadAt, fail when fewer are available.
The Go code indexes msgs directly and its callers guarantee the index is in
range; the out-of-range case is mapped to serverError and is unreachable
from the handler. -/
def sendLog (mlg : Msglog) (n : Nat) : GetOutcome :=
  match mlg.msgs.get? n with
  | none => GetOutcome.serverError
  | some p =>
    let rec_ := (mlg.f.data.drop p.off).take p.sz
    if rec_.length < p.sz then GetOutcome.serverError else GetOutcome.ok rec_

/-- Translation of get (src/evey.go lines 277-304). The n query parameter is
received already parsed: none stands for a missing parameter or a value
strconv.ParseUint with bit size 32 rejects (anything non-numeric, negative,
or at least 2 ^ 32); some n for a successfully parsed value. The handler
then rejects n below 1 as a 400, answers 204 past the end of the index, and
otherwise streams the record. -/
def get (path : List Char) (nq : Option Nat) (logs : List Msglog) : GetOutcome :=
  let name := getQueueName path
  if name = [] then GetOutcome.badRequest
  else
    match findLog name logs with
    | none => GetOutcome.notFound
    | some mlg =>
      match nq with
      | none => GetOutcome.badRequest
      | some n =>
        if n < 1 then GetOutcome.badRequest
        else if mlg.msgs.length ≤ n - 1 then GetOutcome.noContent
        else sendLog mlg (n - 1)

/-- Outcome of the put handler: badRequest = 400, serverError = 500,
ok = the sequence number printed back. -/
inductive PutOutcome where
  | badRequest
  | serverError
  | ok (n : Nat)
deriving DecidableEq, Repr

/-- Translation of put (src/evey.go lines 59-85). The Content-Length header
is received already parsed: none when the header is missing, some none when
strconv.ParseUint with bit size 32 rejects its value, some (some l) for a
parsed length l. Name validation and the 1024-byte cap run before any
storage operation. -/
def put (path : List Char) (clen : Option (Option Nat)) (inp : InStream)
    (logs : List Msglog) : PutOutcome × List Msglog :=
  let name := getQueueName path
  if name = [] then (PutOutcome.badRequest, logs)
  else
    match clen with
    | none => (PutOutcome.badRequest, logs)
    | some none => (PutOutcome.badRequest, logs)
    | some (some len_) =>
      if 1024 < len_ then (PutOutcome.badRequest, logs)
      else
        match save name len_ inp logs with
        | (none, logs2) => (PutOutcome.serverError, logs2)
        | (some num, logs2) => (PutOutcome.ok num, logs2)

/-- The bytes one record occupies in the file: marker, little-endian length,
newline, payload. This is what one successful saveMsg call with a body of
exactly the declared length appends to the file. -/
def record (p : List Nat) : List Nat :=
  RECHEADER ++ le4 p.length ++ [10] ++ p

/-- The log file contents after the payloads ps have been appended in order
to a freshly created queue whose bodies matched their declared lengths. -/
def logFileOf (ps : List (List Nat)) : List Nat :=
  DBHEADER ++ (ps.map record).flatten

instance {ε α : Type} [DecidableEq ε] [DecidableEq α] : DecidableEq (Except ε α) := fun
  | Except.error a, Except.error b =>
    if h : a = b then Decidable.isTrue (by rw [h]) else Decidable.isFalse (by simp [h])
  | Except.error _, Except.ok _ => Decidable.isFalse (by simp)
  | Except.ok _, Except.error _ => Decidable.isFalse (by simp)
  | Except.ok a, Except.ok b =>
    if h : a = b then Decidable.isTrue (by rw [h]) else Decidable.isFalse (by simp [h])

/-- The record pointers for consecutive records of the given payloads laid
out from the given base offset. -/
def ptrsFrom (base : Nat) : List (List Nat) → List Recptr
  | [] => []
  | p :: ps => ⟨base + RECHEADERSZ, p.length⟩ :: ptrsFrom (base + RECHEADERSZ + p.length) ps

/-- A sequence of proper appends on one queue: each payload is delivered as
one body chunk whose length is also the declared content length, exactly
what the put handler passes to save for a well-behaved client. -/
def putSeq (name : List Char) (ps : List (List Nat)) (logs : List Msglog) : List Msglog :=
  ps.foldl (fun s p => (save name p.length ⟨[p], false⟩ s).2) logs

lemma le4_length (n : Nat) : (le4 n).length = 4 := rfl

lemma dec4_le4 (n : Nat) (h : n < 2 ^ 32) : dec4 (le4 n) = n := by
  simp only [dec4, le4]
  omega

lemma record_length (p : List Nat) : (record p).length = RECHEADERSZ + p.length := by
  simp [record, RECHEADERSZ, RECHEADER, le4]
  omega

lemma record_eq (p : List Nat) :
    record p = (RECHEADER ++ le4 p.length ++ [10]) ++ p := by
  simp [record, List.append_assoc]

/-- Decoding the header of a well-formed record placed at the offset. -/
lemma getRecLen_of_drop (f : List Nat) (off n : Nat) (rest : List Nat)
    (hd : f.drop off = RECHEADER ++ le4 n ++ [10] ++ rest) (hn : n < 2 ^ 32) :
    getRecLen off f = Except.ok n := by
  have h10 : (RECHEADER ++ le4 n ++ [10]).length = RECHEADERSZ := by
    simp [RECHEADER, le4, RECHEADERSZ]
  have htake : (f.drop off).take RECHEADERSZ = RECHEADER ++ le4 n ++ [10] := by
    rw [hd, show RECHEADER ++ le4 n ++ [10] ++ rest = (RECHEADER ++ le4 n ++ [10]) ++ rest by
      simp [List.append_assoc]]
    exact List.take_left' h10
  simp only [getRecLen]
  rw [htake]
  simp [RECHEADER, RECHEADERSZ, le4, dec4]
  omega

/-- A proper append (body chunks deliver exactly the declared number of
bytes, all writes succeed) extends the file by one record and the index by
one pointer to its payload. -/
lemma appendToLog_ok (p : List Nat) (name : List Char) (F : List Nat) (M : List Recptr) :
    appendToLog p.length ⟨[p], false⟩ ⟨name, ⟨F, none⟩, M⟩ =
      (some (M.length + 1),
        ⟨name, ⟨F ++ record p, none⟩, M ++ [⟨F.length + RECHEADERSZ, p.length⟩]⟩) := by
  simp [appendToLog, saveMsg, writeF, writeChunks, record, List.append_assoc]

lemma findLog_singleton (name : List Char) (mlg : Msglog) (h : mlg.name = name) :
    findLog name [mlg] = some mlg := by
  simp [findLog, List.find?, h]

lemma replaceLog_singleton (name : List Char) (new mlg : Msglog) (h : mlg.name = name) :
    replaceLog name new [mlg] = [new] := by
  simp [replaceLog, h]

/-- Folding proper appends over a single-log state whose log has the target
name: the file grows by the records, the index by the matching pointers. -/
lemma putSeq_singleton (ps : List (List Nat)) :
    ∀ (name : List Char) (F : List Nat) (M : List Recptr),
      putSeq name ps [⟨name, ⟨F, none⟩, M⟩] =
        [⟨name, ⟨F ++ (ps.map record).flatten, none⟩, M ++ ptrsFrom F.length ps⟩] := by
  induction ps with
  | nil => intro name F M; simp [putSeq, ptrsFrom]
  | cons p ps ih =>
    intro name F M
    have hfind : findLog name [(⟨name, ⟨F, none⟩, M⟩ : Msglog)] = some ⟨name, ⟨F, none⟩, M⟩ :=
      findLog_singleton name ⟨name, ⟨F, none⟩, M⟩ rfl
    have hrepl := replaceLog_singleton name
      (⟨name, ⟨F ++ record p, none⟩, M ++ [⟨F.length + RECHEADERSZ, p.length⟩]⟩ : Msglog)
      (⟨name, ⟨F, none⟩, M⟩ : Msglog) rfl
    have hstep :
        (save name p.length ⟨[p], false⟩ [⟨name, ⟨F, none⟩, M⟩]).2 =
          [⟨name, ⟨F ++ record p, none⟩, M ++ [⟨F.length + RECHEADERSZ, p.length⟩]⟩] := by
      simp only [save, hfind, appendToLog_ok, hrepl]
    show putSeq name ps _ = _
    rw [show putSeq name ps ((save name p.length ⟨[p], false⟩ [⟨name, ⟨F, none⟩, M⟩]).2) =
        putSeq name ps [⟨name, ⟨F ++ record p, none⟩,
          M ++ [⟨F.length + RECHEADERSZ, p.length⟩]⟩] by rw [hstep]]
    rw [ih]
    simp [ptrsFrom, List.append_assoc, record_length, Nat.add_assoc]

/-- Appending payloads to a fresh state creates one queue whose file is the
header plus the records and whose index is the matching pointer list. -/
lemma putSeq_from_nil (name : List Char) (p : List Nat) (ps : List (List Nat)) :
    putSeq name (p :: ps) [] =
      [⟨name, ⟨DBHEADER ++ ((p :: ps).map record).flatten, none⟩,
        ptrsFrom DBHEADER.length (p :: ps)⟩] := by
  have hfirst :
      (save name p.length ⟨[p], false⟩ []).2 =
        [⟨name, ⟨DBHEADER ++ record p, none⟩, [⟨DBHEADER.length + RECHEADERSZ, p.length⟩]⟩] := by
    simp only [save, findLog, List.find?, createLog, appendToLog_ok]
    rfl
  show putSeq name ps _ = _
  rw [show putSeq name ps ((save name p.length ⟨[p], false⟩ []).2) =
      putSeq name ps [⟨name, ⟨DBHEADER ++ record p, none⟩,
        [⟨DBHEADER.length + RECHEADERSZ, p.length⟩]⟩] by rw [hfirst]]
  rw [putSeq_singleton]
  simp [ptrsFrom, List.append_assoc, record_length, Nat.add_assoc]

lemma RECHEADERSZ_eq : RECHEADERSZ = 10 := rfl

/-- Walking the scan over a well-formed run of records: the loop emits the
pointers for those records and continues on whatever follows them. -/
lemma scan_through (ps : List (List Nat)) :
    ∀ (F B : List Nat) (fuel : Nat), (∀ p ∈ ps, p.length < 2 ^ 32) →
      scanRecs (ps.length + fuel) (F ++ ((ps.map record).flatten ++ B)) F.length =
        match scanRecs fuel (F ++ ((ps.map record).flatten ++ B))
            (F.length + ((ps.map record).flatten).length) with
        | Except.error e => Except.error e
        | Except.ok rest => Except.ok (ptrsFrom F.length ps ++ rest) := by
  induction ps with
  | nil =>
    intro F B fuel h
    simp only [List.map_nil, List.flatten_nil, List.nil_append, List.length_nil,
      Nat.zero_add, Nat.add_zero, ptrsFrom]
    cases hscan : scanRecs fuel (F ++ B) F.length with
    | error e => simp [hscan]
    | ok rest => simp [hscan]
  | cons p ps ih =>
    intro F B fuel h
    have hp : p.length < 2 ^ 32 := h p (by simp)
    have hps : ∀ q ∈ ps, q.length < 2 ^ 32 := fun q hq => h q (by simp [hq])
    simp only [List.map_cons, List.flatten_cons, List.length_cons, List.append_assoc]
    rw [show ps.length + 1 + fuel = (ps.length + fuel) + 1 by omega]
    rw [scanRecs]
    have hnotle :
        ¬ ((F ++ (record p ++ ((ps.map record).flatten ++ B))).length ≤ F.length) := by
      simp [record_length, RECHEADERSZ_eq]
    rw [if_neg hnotle]
    have hdr : (F ++ (record p ++ ((ps.map record).flatten ++ B))).drop F.length =
        RECHEADER ++ le4 p.length ++ [10] ++ (p ++ ((ps.map record).flatten ++ B)) := by
      rw [List.drop_left]
      simp [record, List.append_assoc]
    simp only [getRecLen_of_drop _ _ _ _ hdr hp]
    have hoff : F.length + RECHEADERSZ + p.length = (F ++ record p).length := by
      simp [record_length]
      omega
    have hfl : F ++ (record p ++ ((ps.map record).flatten ++ B)) =
        (F ++ record p) ++ ((ps.map record).flatten ++ B) := by
      simp [List.append_assoc]
    rw [hoff, hfl, ih (F ++ record p) B fuel hps]
    have hoff2 : (F ++ record p).length + ((ps.map record).flatten).length =
        F.length + (record p ++ (ps.map record).flatten).length := by
      simp [record_length]
      omega
    rw [hoff2]
    cases hscan : scanRecs fuel ((F ++ record p) ++ ((ps.map record).flatten ++ B))
        (F.length + (record p ++ (ps.map record).flatten).length) with
    | error e => simp [hscan]
    | ok rest =>
      simp only [hscan, ptrsFrom]
      have : (F ++ record p).length = F.length + RECHEADERSZ + p.length := by
        simp [record_length]
        omega
      rw [this]
      simp

/-- Each record takes at least one byte, so the flattened records are at
least as long as the payload list. -/
lemma flatten_record_length (ps : List (List Nat)) :
    ps.length ≤ ((ps.map record).flatten).length := by
  induction ps with
  | nil => simp
  | cons p ps ih =>
    simp only [List.map_cons, List.flatten_cons, List.length_append, List.length_cons]
    have : 1 ≤ (record p).length := by
      rw [record_length, RECHEADERSZ_eq]
      omega
    omega

/-- Recovery of a log file holding exactly the records of the payloads ps
rebuilds exactly the pointers a live sequence of proper appends would have
accumulated. -/
lemma loadLog_wellformed (ps : List (List Nat)) (h : ∀ p ∈ ps, p.length < 2 ^ 32) :
    loadLog (logFileOf ps) = Except.ok (ptrsFrom DBHEADER.length ps) := by
  have hfile : logFileOf ps = DBHEADER ++ ((ps.map record).flatten ++ []) := by
    simp [logFileOf]
  have htk : (logFileOf ps).take DBHEADER.length = DBHEADER := by
    rw [hfile]
    exact List.take_left DBHEADER _
  have hlen6 : (DBHEADER : List Nat).length = 6 := rfl
  have hfuel : ∃ k, (logFileOf ps).length + 1 = ps.length + (k + 1) := by
    have h1 : ps.length ≤ ((ps.map record).flatten).length := flatten_record_length ps
    have h2 : (logFileOf ps).length = 6 + ((ps.map record).flatten).length := by
      simp [logFileOf, DBHEADER]
      omega
    exact ⟨(logFileOf ps).length - ps.length, by omega⟩
  obtain ⟨k, hk⟩ := hfuel
  rw [loadLog, htk, if_neg (by simp), if_pos rfl, hk]
  rw [show ps.length + (k + 1) = ps.length + (k + 1) from rfl]
  have := scan_through ps DBHEADER [] (k + 1) h
  rw [hfile]
  rw [this]
  have hend : scanRecs (k + 1) (DBHEADER ++ ((ps.map record).flatten ++ []))
      (DBHEADER.length + ((ps.map record).flatten).length) = Except.ok [] := by
    rw [scanRecs]
    rw [if_pos (by simp)]
  rw [hend]
  simp

lemma ptrsFrom_length (ps : List (List Nat)) : ∀ base, (ptrsFrom base ps).length = ps.length := by
  induction ps with
  | nil => intro base; rfl
  | cons p ps ih => intro base; simp [ptrsFrom, ih]

/-- Reading through the pointer for position j of a well-formed file yields
exactly the j-th payload. -/
lemma ptrsFrom_read (ps : List (List Nat)) :
    ∀ (F : List Nat) (j : Nat), j < ps.length →
      ∃ ptr, (ptrsFrom F.length ps).get? j = some ptr ∧
        ptr.sz = (ps.getD j []).length ∧
        ((F ++ (ps.map record).flatten).drop ptr.off).take ptr.sz = ps.getD j [] := by
  induction ps with
  | nil => intro F j hj; simp at hj
  | cons p ps ih =>
    intro F j hj
    cases j with
    | zero =>
      refine ⟨⟨F.length + RECHEADERSZ, p.length⟩, by simp [ptrsFrom], by simp, ?_⟩
      have hshape : F ++ ((p :: ps).map record).flatten =
          (F ++ (RECHEADER ++ le4 p.length ++ [10])) ++ (p ++ (ps.map record).flatten) := by
        simp [record, List.append_assoc]
      have hlen : (F ++ (RECHEADER ++ le4 p.length ++ [10])).length = F.length + RECHEADERSZ := by
        simp [RECHEADER, le4, RECHEADERSZ]
      rw [hshape, List.drop_left' hlen]
      simp [List.take_left]
    | succ j =>
      have hj2 : j < ps.length := by simpa using hj
      obtain ⟨ptr, hget, hsz, hread⟩ := ih (F ++ record p) j hj2
      refine ⟨ptr, ?_, by simpa using hsz, ?_⟩
      · have hb : F.length + RECHEADERSZ + p.length = (F ++ record p).length := by
          simp [record_length]
          omega
        have : ptrsFrom F.length (p :: ps) =
            ⟨F.length + RECHEADERSZ, p.length⟩ :: ptrsFrom (F ++ record p).length ps := by
          rw [ptrsFrom, hb]
        rw [this]
        simpa using hget
      · have : F ++ ((p :: ps).map record).flatten =
            (F ++ record p) ++ (ps.map record).flatten := by
          simp [List.append_assoc]
        rw [this]
        simpa using hread

/-- Every pointer of a well-formed layout records the payload length of its
position and stays inside the file. -/
lemma ptrsFrom_bound (ps : List (List Nat)) :
    ∀ (F : List Nat) (j : Nat) (ptr : Recptr), (ptrsFrom F.length ps).get? j = some ptr →
      ptr.sz = (ps.getD j []).length ∧
      ptr.off + ptr.sz ≤ (F ++ (ps.map record).flatten).length := by
  induction ps with
  | nil => intro F j ptr hget; simp [ptrsFrom] at hget
  | cons p ps ih =>
    intro F j ptr hget
    cases j with
    | zero =>
      simp [ptrsFrom] at hget
      subst hget
      constructor
      · simp
      · simp [record_length, RECHEADERSZ_eq]
        omega
    | succ j =>
      have hget2 : (ptrsFrom (F ++ record p).length ps).get? j = some ptr := by
        have hbase : F.length + RECHEADERSZ + p.length = (F ++ record p).length := by
          simp [record_length]
          omega
        simp only [ptrsFrom, List.get?] at hget
        rw [hbase] at hget
        exact hget
      obtain ⟨hsz, hbd⟩ := ih (F ++ record p) j ptr hget2
      refine ⟨by simpa using hsz, ?_⟩
      have : (F ++ ((p :: ps).map record).flatten).length =
          ((F ++ record p) ++ (ps.map record).flatten).length := by
        simp [List.append_assoc]
      omega

lemma getQueueName_gpath (name : List Char)
    (h2 : ∀ c ∈ name, isValidChar c = true) :
    getQueueName (['/', 'g', '/'] ++ name) = name := by
  have hex : extractName (['/', 'g', '/'] ++ name) = name := rfl
  have hinv : isInvalidName name = false := by
    rw [isInvalidName, List.any_eq_false]
    intro c hc
    simp [h2 c hc]
  rw [getQueueName, hex, hinv]
  simp

/-- C4: for any queue name and any sequence of payloads p1..pk, each at most
1024 bytes, appended in order to that queue, a subsequent read of sequence
number i for every 1 <= i <= k returns exactly payload pi, byte for byte. -/
theorem c4_roundtrip (name : List Char) (ps : List (List Nat)) (i : Nat)
    (hname : name ≠ []) (hvalid : ∀ c ∈ name, isValidChar c = true)
    (hlen : ∀ p ∈ ps, p.length ≤ 1024) (hi1 : 1 ≤ i) (hik : i ≤ ps.length) :
    get (['/', 'g', '/'] ++ name) (some i) (putSeq name ps []) =
      GetOutcome.ok (ps.getD (i - 1) []) := by
  cases ps with
  | nil => simp at hik; omega
  | cons p ps' =>
    rw [putSeq_from_nil]
    have hgq := getQueueName_gpath name hvalid
    have hfind :
        findLog name [(⟨name, ⟨DBHEADER ++ ((p :: ps').map record).flatten, none⟩,
          ptrsFrom DBHEADER.length (p :: ps')⟩ : Msglog)] =
          some ⟨name, ⟨DBHEADER ++ ((p :: ps').map record).flatten, none⟩,
            ptrsFrom DBHEADER.length (p :: ps')⟩ :=
      findLog_singleton name _ rfl
    simp only [get, hgq, if_neg hname, hfind]
    obtain ⟨ptr, hget, hsz, hread⟩ := ptrsFrom_read (p :: ps') DBHEADER (i - 1) (by
      simp only [List.length_cons]
      simp only [List.length_cons] at hik
      omega)
    rw [if_neg (by omega)]
    rw [if_neg (by rw [ptrsFrom_length]; simp only [List.length_cons]; simp only [List.length_cons] at hik; omega)]
    simp only [sendLog, hget, hread]
    rw [if_neg (by rw [hsz]; omega)]

/-- C4 witness: appending the payloads A and BB to queue q and reading
sequence number 2 returns BB. -/
theorem c4_roundtrip_witness :
    get (['/', 'g', '/'] ++ ['q']) (some 2) (putSeq ['q'] [[65], [66, 66]] []) =
      GetOutcome.ok ([[65], [66, 66]].getD (2 - 1) []) :=
  c4_roundtrip ['q'] [[65], [66, 66]] 2 (by decide) (by decide) (by decide) (by decide)
    (by decide)

/-- C6: every successful append returns the index length after the append,
which is exactly one more than before it, so on the n-th successful append
to a queue (counting recovered messages in its starting index) the returned
sequence number is n positions past the initial count, never reused or
skipped. -/
theorem c6_seq_number (len_ : Nat) (inp : InStream) (mlg : Msglog) (r : Nat) (mlg2 : Msglog)
    (h : appendToLog len_ inp mlg = (some r, mlg2)) :
    r = mlg2.msgs.length ∧ mlg2.msgs.length = mlg.msgs.length + 1 := by
  unfold appendToLog at h
  cases hsm : saveMsg len_ inp mlg.f with
  | mk o f2 =>
    rw [hsm] at h
    cases o with
    | none => simp at h
    | some off =>
      simp only [Prod.mk.injEq, Option.some.injEq] at h
      obtain ⟨hr, hm⟩ := h
      subst hm
      subst hr
      simp

/-- C6 witness: the first append to a fresh queue returns sequence
number 1. -/
theorem c6_seq_number_witness :
    1 = (appendToLog 1 ⟨[[120]], false⟩ (createLog ['q'])).2.msgs.length ∧
    (appendToLog 1 ⟨[[120]], false⟩ (createLog ['q'])).2.msgs.length =
      (createLog ['q']).msgs.length + 1 :=
  c6_seq_number 1 ⟨[[120]], false⟩ (createLog ['q']) 1
    (appendToLog 1 ⟨[[120]], false⟩ (createLog ['q'])).2 (by decide)

/-- C8: a failing append (any underlying write failure, or a body read
error other than EOF) reports the error through the none result and leaves
the index of the queue unchanged; the pointer is appended only on a fully
successful write. -/
theorem c8_failed_append (len_ : Nat) (inp : InStream) (mlg : Msglog)
    (h : (appendToLog len_ inp mlg).1 = none) :
    ((appendToLog len_ inp mlg).2).msgs = mlg.msgs := by
  unfold appendToLog at h ⊢
  cases hsm : saveMsg len_ inp mlg.f with
  | mk o f2 =>
    cases o with
    | none => rfl
    | some off => simp [hsm] at h

/-- C8 witness: an append whose very first file write fails (write budget
exhausted) reports failure and leaves the index unchanged. -/
theorem c8_failed_append_witness :
    ((appendToLog 1 ⟨[[120]], false⟩ ⟨['q'], ⟨DBHEADER, some 0⟩, []⟩).2).msgs =
      (⟨['q'], ⟨DBHEADER, some 0⟩, []⟩ : Msglog).msgs :=
  c8_failed_append 1 ⟨[[120]], false⟩ ⟨['q'], ⟨DBHEADER, some 0⟩, []⟩ (by decide)

/-- C2 counterexample: on an existing queue holding one message, requesting
sequence number 0 yields the 400 client-error response of the handler, not
the no-content outcome the claim requires for every out-of-range number. -/
theorem c2_counterexample :
    get ['/', 'g', '/', 'q'] (some 0) (putSeq ['q'] [[65]] []) = GetOutcome.badRequest ∧
    GetOutcome.badRequest ≠ GetOutcome.noContent := by
  decide

/-- C2 (amended): on an existing queue, a requested sequence number greater
than the message count yields the no-content outcome, while 0, a negative
number, or an unparsable number (modelled by the none parse result) is
rejected with a 400 client error before the index is consulted. -/
theorem c2_get_amended (path : List Char) (logs : List Msglog) (mlg : Msglog) (n : Nat)
    (hname : getQueueName path ≠ []) (hfind : findLog (getQueueName path) logs = some mlg) :
    (1 ≤ n → mlg.msgs.length < n → get path (some n) logs = GetOutcome.noContent) ∧
    get path (some 0) logs = GetOutcome.badRequest ∧
    get path none logs = GetOutcome.badRequest := by
  refine ⟨?_, ?_, ?_⟩
  · intro h1 h2
    simp only [get, if_neg hname, hfind]
    rw [if_neg (by omega), if_pos (by omega)]
  · simp only [get, if_neg hname, hfind]
    rw [if_pos (by omega)]
  · simp only [get, if_neg hname, hfind]

/-- C2 witness: on queue q holding one message, sequence number 2 yields no
content while 0 and an unparsable number yield the 400 client error. -/
theorem c2_get_amended_witness :
    get ['/', 'g', '/', 'q'] (some 2) (putSeq ['q'] [[65]] []) = GetOutcome.noContent ∧
    get ['/', 'g', '/', 'q'] (some 0) (putSeq ['q'] [[65]] []) = GetOutcome.badRequest ∧
    get ['/', 'g', '/', 'q'] none (putSeq ['q'] [[65]] []) = GetOutcome.badRequest :=
  have h := c2_get_amended ['/', 'g', '/', 'q'] (putSeq ['q'] [[65]] [])
    ⟨['q'], ⟨DBHEADER ++ record [65], none⟩, [⟨16, 1⟩]⟩ 2 (by decide) (by decide)
  ⟨h.1 (by decide) (by decide), h.2.1, h.2.2⟩

/-- C3 counterexample: an append whose body supplies 2 bytes against a
declared length of 5 succeeds, and the recorded pointer keeps size 5 (not
the 2 bytes actually written) with offset + size = 21 exceeding the file
length 18. -/
theorem c3_counterexample :
    (save ['q'] 5 ⟨[[97, 98]], false⟩ []).1 = some 1 ∧
    ((save ['q'] 5 ⟨[[97, 98]], false⟩ []).2.headD (createLog ['q'])).msgs = [⟨16, 5⟩] ∧
    ((save ['q'] 5 ⟨[[97, 98]], false⟩ []).2.headD (createLog ['q'])).f.data.length = 18 ∧
    ((save ['q'] 5 ⟨[[97, 98]], false⟩ []).2.headD (createLog ['q'])).f.data.length <
      (((save ['q'] 5 ⟨[[97, 98]], false⟩ []).2.headD (createLog ['q'])).msgs.getD 0 ⟨0, 0⟩).off +
        (((save ['q'] 5 ⟨[[97, 98]], false⟩ []).2.headD (createLog ['q'])).msgs.getD 0 ⟨0, 0⟩).sz := by
  decide

/-- C3 (amended): provided every append body supplies exactly the declared
number of bytes, each pointer in the index records as size the number of
payload bytes actually written for its record, and offset + size never
exceeds the file length. -/
theorem c3_ptr_invariant_amended (name : List Char) (ps : List (List Nat)) :
    ∀ mlg ∈ putSeq name ps [], ∀ (j : Nat) (ptr : Recptr), mlg.msgs.get? j = some ptr →
      ptr.sz = (ps.getD j []).length ∧ ptr.off + ptr.sz ≤ mlg.f.data.length := by
  cases ps with
  | nil => intro mlg hmlg; simp [putSeq] at hmlg
  | cons p ps' =>
    intro mlg hmlg j ptr hget
    rw [putSeq_from_nil] at hmlg
    simp only [List.mem_singleton] at hmlg
    subst hmlg
    exact ptrsFrom_bound (p :: ps') DBHEADER j ptr hget

/-- C3 witness: after one proper append of a 1-byte payload, the recorded
pointer has size 1 and stays inside the 17-byte file. -/
theorem c3_ptr_invariant_amended_witness :
    (⟨16, 1⟩ : Recptr).sz = ([[65]].getD 0 []).length ∧
    (⟨16, 1⟩ : Recptr).off + (⟨16, 1⟩ : Recptr).sz ≤
      (⟨['q'], ⟨DBHEADER ++ record [65], none⟩, [⟨16, 1⟩]⟩ : Msglog).f.data.length :=
  c3_ptr_invariant_amended ['q'] [[65]]
    ⟨['q'], ⟨DBHEADER ++ record [65], none⟩, [⟨16, 1⟩]⟩ (by decide) 0 ⟨16, 1⟩ (by decide)

/-- C5 counterexample: two appends both succeed (sequence numbers 1 and 2),
the first with a body of 2 bytes against a declared length of 5; re-running
the recovery scan on the resulting file fails with a format error instead
of rebuilding the live two-pointer index. -/
theorem c5_counterexample :
    (save ['q'] 5 ⟨[[97, 98]], false⟩ []).1 = some 1 ∧
    (save ['q'] 1 ⟨[[120]], false⟩ (save ['q'] 5 ⟨[[97, 98]], false⟩ []).2).1 = some 2 ∧
    ((save ['q'] 1 ⟨[[120]], false⟩
        (save ['q'] 5 ⟨[[97, 98]], false⟩ []).2).2.headD (createLog ['q'])).msgs =
      [⟨16, 5⟩, ⟨28, 1⟩] ∧
    loadLog (((save ['q'] 1 ⟨[[120]], false⟩
        (save ['q'] 5 ⟨[[97, 98]], false⟩ []).2).2.headD (createLog ['q'])).f.data) =
      Except.error "Read Failed" := by
  decide

/-- C5 (amended): for any sequence of appends whose bodies supply exactly
their declared lengths, re-running the startup recovery scan over the
resulting log file rebuilds an index identical in length, order, byte
offsets, and sizes to the index built incrementally in memory during the
live appends. -/
theorem c5_recovery_amended (name : List Char) (ps : List (List Nat))
    (hlen : ∀ p ∈ ps, p.length ≤ 1024) :
    ∀ mlg ∈ putSeq name ps [], loadLog mlg.f.data = Except.ok mlg.msgs := by
  cases ps with
  | nil => intro mlg hmlg; simp [putSeq] at hmlg
  | cons p ps' =>
    intro mlg hmlg
    rw [putSeq_from_nil] at hmlg
    simp only [List.mem_singleton] at hmlg
    subst hmlg
    have h32 : ∀ q ∈ p :: ps', q.length < 2 ^ 32 := fun q hq => by
      have := hlen q hq
      omega
    exact loadLog_wellformed (p :: ps') h32

/-- C5 witness: after one proper 1-byte append the recovery scan rebuilds
exactly the live index. -/
theorem c5_recovery_amended_witness :
    loadLog (⟨['q'], ⟨DBHEADER ++ record [65], none⟩, [⟨16, 1⟩]⟩ : Msglog).f.data =
      Except.ok (⟨['q'], ⟨DBHEADER ++ record [65], none⟩, [⟨16, 1⟩]⟩ : Msglog).msgs :=
  c5_recovery_amended ['q'] [[65]] (by decide)
    ⟨['q'], ⟨DBHEADER ++ record [65], none⟩, [⟨16, 1⟩]⟩ (by decide)

/-- The scan of a file made of well-formed records followed by trailing
bytes on which the header decoder fails aborts with that error. -/
lemma loadLog_append_err (ps : List (List Nat)) (tail : List Nat) (e : String)
    (h32 : ∀ p ∈ ps, p.length < 2 ^ 32) (hne : tail ≠ [])
    (herr : getRecLen (DBHEADER.length + ((ps.map record).flatten).length)
        (DBHEADER ++ ((ps.map record).flatten ++ tail)) = Except.error e) :
    loadLog (DBHEADER ++ ((ps.map record).flatten ++ tail)) = Except.error e := by
  have htk : (DBHEADER ++ ((ps.map record).flatten ++ tail)).take DBHEADER.length = DBHEADER :=
    List.take_left _ _
  have hlen : (DBHEADER ++ ((ps.map record).flatten ++ tail)).length =
      6 + ((ps.map record).flatten).length + tail.length := by
    simp [DBHEADER]
    omega
  have h1 : ps.length ≤ ((ps.map record).flatten).length := flatten_record_length ps
  have htail : 0 < tail.length := List.length_pos.2 hne
  obtain ⟨k, hk⟩ : ∃ k, (DBHEADER ++ ((ps.map record).flatten ++ tail)).length + 1 =
      ps.length + (k + 1) :=
    ⟨(DBHEADER ++ ((ps.map record).flatten ++ tail)).length - ps.length, by omega⟩
  rw [loadLog, htk, if_neg (by simp), if_pos rfl, hk,
    scan_through ps DBHEADER tail (k + 1) h32]
  have hinner : scanRecs (k + 1) (DBHEADER ++ ((ps.map record).flatten ++ tail))
      (DBHEADER.length + ((ps.map record).flatten).length) = Except.error e := by
    rw [scanRecs, if_neg (by
      rw [hlen, show (DBHEADER : List Nat).length = 6 from rfl]
      omega), herr]
  rw [hinner]

/-- C1 counterexample: a log file whose sole record declares 5 payload
bytes but is truncated after 2 is accepted by the recovery scan with no
error, producing the pointer with offset 16 and size 5 whose end, 21, lies
past the 18-byte end of the file. -/
theorem c1_counterexample :
    loadLog (DBHEADER ++ RECHEADER ++ le4 5 ++ [10] ++ [97, 98]) = Except.ok [⟨16, 5⟩] ∧
    (DBHEADER ++ RECHEADER ++ le4 5 ++ [10] ++ [97, 98]).length < 16 + 5 := by
  decide

/-- C1 (amended): the recovery scan fails with a format error when the
header of the next record extends past the end of the file, and when a byte
of a record marker is flipped; but a record whose header is intact and
whose payload extends past the end of the file is accepted silently,
producing a pointer past end-of-file. -/
theorem c1_detection_amended :
    (∀ (ps : List (List Nat)) (tail : List Nat), (∀ p ∈ ps, p.length ≤ 1024) →
      tail ≠ [] → tail.length < RECHEADERSZ →
      loadLog (DBHEADER ++ ((ps.map record).flatten ++ tail)) = Except.error "Read Failed") ∧
    (∀ (ps : List (List Nat)) (i : Nat) (b : Nat) (rest : List Nat),
      (∀ p ∈ ps, p.length ≤ 1024) → i < RECHEADER.length → b ≠ RECHEADER.getD i 0 →
      isErr (loadLog (DBHEADER ++ ((ps.map record).flatten ++ (RECHEADER.set i b ++ rest)))) =
        true) := by
  constructor
  · intro ps tail hlen hne hsz
    have h32 : ∀ p ∈ ps, p.length < 2 ^ 32 := fun p hp => by have := hlen p hp; omega
    apply loadLog_append_err ps tail "Read Failed" h32 hne
    have hdrop : (DBHEADER ++ ((ps.map record).flatten ++ tail)).drop
        (DBHEADER.length + ((ps.map record).flatten).length) = tail := by
      rw [show DBHEADER ++ ((ps.map record).flatten ++ tail) =
        (DBHEADER ++ (ps.map record).flatten) ++ tail by simp [List.append_assoc]]
      exact List.drop_left' (by simp)
    simp only [getRecLen, hdrop]
    rw [if_pos (by
      rw [List.length_take]
      omega)]
  · intro ps i b rest hlen hi hb
    have h32 : ∀ p ∈ ps, p.length < 2 ^ 32 := fun p hp => by have := hlen p hp; omega
    have hdrop : (DBHEADER ++ ((ps.map record).flatten ++ (RECHEADER.set i b ++ rest))).drop
        (DBHEADER.length + ((ps.map record).flatten).length) = RECHEADER.set i b ++ rest := by
      rw [show DBHEADER ++ ((ps.map record).flatten ++ (RECHEADER.set i b ++ rest)) =
        (DBHEADER ++ (ps.map record).flatten) ++ (RECHEADER.set i b ++ rest) by
          simp [List.append_assoc]]
      exact List.drop_left' (by simp)
    have hsetlen : (RECHEADER.set i b).length = RECHEADER.length := List.length_set _ _ _
    have hne : RECHEADER.set i b ++ rest ≠ [] := by
      intro heq
      have : (RECHEADER.set i b ++ rest).length = 0 := by rw [heq]; rfl
      rw [List.length_append, hsetlen] at this
      simp [RECHEADER] at this
    by_cases hrest : (RECHEADER.set i b ++ rest).length < RECHEADERSZ
    · have herr : getRecLen (DBHEADER.length + ((ps.map record).flatten).length)
          (DBHEADER ++ ((ps.map record).flatten ++ (RECHEADER.set i b ++ rest))) =
          Except.error "Read Failed" := by
        simp only [getRecLen, hdrop]
        rw [if_pos (by
          rw [List.length_take]
          omega)]
      rw [loadLog_append_err ps _ "Read Failed" h32 hne herr]
      rfl
    · have hmarker : RECHEADER.set i b ≠ RECHEADER := by
        intro heq
        apply hb
        have hgd : (RECHEADER.set i b).getD i 0 = b := by
          rw [show (RECHEADER : List Nat).length = 5 from rfl] at hi
          interval_cases i <;> simp [RECHEADER]
        rw [heq] at hgd
        exact hgd.symm
      have htk5 : (((RECHEADER.set i b ++ rest).take RECHEADERSZ).take RECHEADER.length) =
          RECHEADER.set i b := by
        rw [List.take_take, show min RECHEADER.length RECHEADERSZ = RECHEADER.length from rfl]
        exact List.take_left' hsetlen
      have herr : getRecLen (DBHEADER.length + ((ps.map record).flatten).length)
          (DBHEADER ++ ((ps.map record).flatten ++ (RECHEADER.set i b ++ rest))) =
          Except.error "Invalid Rec Header" := by
        simp only [getRecLen, hdrop]
        rw [if_neg (by
          rw [List.length_take]
          omega), if_neg (by rw [htk5]; exact hmarker)]
      rw [loadLog_append_err ps _ "Invalid Rec Header" h32 hne herr]
      rfl

/-- C1 witness: a file whose last record header is cut short makes the scan
fail, and a file whose record marker has its first byte flipped from 10 to
11 makes the scan fail. -/
theorem c1_detection_amended_witness :
    loadLog (DBHEADER ++ ((([] : List (List Nat)).map record).flatten ++ [10])) =
      Except.error "Read Failed" ∧
    isErr (loadLog (DBHEADER ++ ((([] : List (List Nat)).map record).flatten ++
      (RECHEADER.set 0 11 ++ [124, 69, 69, 124, 0, 0, 0, 0, 10])))) = true :=
  ⟨c1_detection_amended.1 [] [10] (by decide) (by decide) (by decide),
   c1_detection_amended.2 [] 0 11 [124, 69, 69, 124, 0, 0, 0, 0, 10] (by decide) (by decide)
     (by decide)⟩

/-- C7: the extracted queue name is accepted exactly when it is non-empty
and all its characters lie in the class [-.A-Za-z0-9]; a rejected name
makes the put handler answer with a client error before any storage
operation, leaving the state untouched. -/
theorem c7_name_validation (p : List Char) (clen : Option (Option Nat)) (inp : InStream)
    (logs : List Msglog) :
    ((getQueueName p ≠ []) ↔
      (extractName p ≠ [] ∧ ∀ c ∈ extractName p, isValidChar c = true)) ∧
    (getQueueName p = [] → put p clen inp logs = (PutOutcome.badRequest, logs)) := by
  constructor
  · by_cases hinv : isInvalidName (extractName p) = true
    · constructor
      · intro hne
        exfalso
        apply hne
        simp [getQueueName, hinv]
      · rintro ⟨hne, hall⟩
        exfalso
        rw [isInvalidName, List.any_eq_true] at hinv
        obtain ⟨c, hc, hbc⟩ := hinv
        simp [hall c hc] at hbc
    · have hfalse : isInvalidName (extractName p) = false := by simpa using hinv
      have hgq : getQueueName p = extractName p := by simp [getQueueName, hfalse]
      rw [hgq]
      constructor
      · intro hne
        refine ⟨hne, fun c hc => ?_⟩
        rw [isInvalidName, List.any_eq_false] at hfalse
        have := hfalse c hc
        simpa using this
      · rintro ⟨hne, _⟩
        exact hne
  · intro hempty
    simp [put, hempty]

/-- C7 witness: the path of a put request naming the queue as two words
separated by a space is rejected, since the extracted name holds a space,
and the handler returns 400 with the state unchanged. -/
theorem c7_name_validation_witness :
    ((getQueueName ['/', 'p', 'u', 't', '/', 'a', ' ', 'b'] ≠ []) ↔
      (extractName ['/', 'p', 'u', 't', '/', 'a', ' ', 'b'] ≠ [] ∧
        ∀ c ∈ extractName ['/', 'p', 'u', 't', '/', 'a', ' ', 'b'], isValidChar c = true)) ∧
    put ['/', 'p', 'u', 't', '/', 'a', ' ', 'b'] none ⟨[], false⟩ [] =
      (PutOutcome.badRequest, []) :=
  ⟨(c7_name_validation ['/', 'p', 'u', 't', '/', 'a', ' ', 'b'] none ⟨[], false⟩ []).1,
   (c7_name_validation ['/', 'p', 'u', 't', '/', 'a', ' ', 'b'] none ⟨[], false⟩ []).2
     (by decide)⟩

/-- C10: every accepted queue name yields a log filename (name plus the
.log extension) that contains no path separator and is neither the current
nor the parent directory entry, so the file path.Join forms under the
storage root is always a direct child of the root. -/
theorem c10_path_safety (p : List Char) (h : getQueueName p ≠ []) :
    ('/' ∉ logFileName (getQueueName p)) ∧
    logFileName (getQueueName p) ≠ ['.'] ∧
    logFileName (getQueueName p) ≠ ['.', '.'] := by
  have hval : ∀ c ∈ getQueueName p, isValidChar c = true := by
    by_cases hinv : isInvalidName (extractName p) = true
    · exfalso
      apply h
      simp [getQueueName, hinv]
    · have hfalse : isInvalidName (extractName p) = false := by simpa using hinv
      have hgq : getQueueName p = extractName p := by simp [getQueueName, hfalse]
      rw [hgq]
      rw [isInvalidName, List.any_eq_false] at hfalse
      intro c hc
      have := hfalse c hc
      simpa using this
  refine ⟨?_, ?_, ?_⟩
  · intro hmem
    rw [logFileName] at hmem
    rcases List.mem_append.1 hmem with hm | hm
    · exact absurd (hval '/' hm) (by decide)
    · simp at hm
  · intro heq
    have : (logFileName (getQueueName p)).length = 1 := by rw [heq]; rfl
    rw [logFileName, List.length_append] at this
    simp at this
  · intro heq
    have : (logFileName (getQueueName p)).length = 2 := by rw [heq]; rfl
    rw [logFileName, List.length_append] at this
    simp at this

/-- C10 witness: the accepted name q yields the log filename q.log, free of
separators and distinct from the dot directory entries. -/
theorem c10_path_safety_witness :
    ('/' ∉ logFileName (getQueueName ['/', 'p', 'u', 't', '/', 'q'])) ∧
    logFileName (getQueueName ['/', 'p', 'u', 't', '/', 'q']) ≠ ['.'] ∧
    logFileName (getQueueName ['/', 'p', 'u', 't', '/', 'q']) ≠ ['.', '.'] :=
  c10_path_safety ['/', 'p', 'u', 't', '/', 'q'] (by decide)

example : (save ['q'] 1 ⟨[[120]], false⟩ []).1 = some 1 := by decide
example :
    (save ['q'] 5 ⟨[[97, 98]], false⟩ []).2 =
      [⟨['q'], ⟨DBHEADER ++ RECHEADER ++ [5, 0, 0, 0] ++ [10] ++ [97, 98], none⟩, [⟨16, 5⟩]⟩] := by
  decide
example : loadLog (logFileOf [[65], [66, 66]]) = Except.ok [⟨16, 1⟩, ⟨27, 2⟩] := by decide
example :
    get ['/', 'g', '/', 'q'] (some 1) (putSeq ['q'] [[65], [66]] []) = GetOutcome.ok [65] := by
  decide

end Evey
